import Mathlib

/-!
Verification of the emotion-decay subsystem and knowledge store of the
`the-emulator` repository (files `src/emulator/emotions.py` and
`src/emulator/knowledge.py`), shallowly embedded in Lean 4.

Conventions of the embedding:
* Python floats are modelled as exact rationals (`ℚ`); the source only ever
  combines decimal literals with `+ * / max min`, so every reachable value is
  an exact rational.
* `datetime` values are modelled as rational seconds; `a - b` with
  `.total_seconds()` becomes rational subtraction.
* Python `dict` (which preserves insertion order and updates values in place)
  is modelled as an association list `List (String × α)` with `dictGet` /
  `dictInsert` mirroring `d.get(k)` / `d[k] = v`.
* Text is modelled as `String` / `List Char`; the keyword matching in the
  source is plain substring containment (`'w' in s`), modelled by `hasSub`.
  `str.lower()` / `str.isupper()` are modelled for ASCII text, which is the
  only kind the keyword tables contain.
* `datetime.now()` is passed in explicitly as a `now : ℚ` parameter.
-/

/-! ## Python dict as an insertion-ordered association list -/

/-- `d.get(key)` on a Python dict: first (unique) binding of `key`. -/
def dictGet {α : Type} : List (String × α) → String → Option α
  | [], _ => none
  | (k, v) :: rest, key => if k = key then some v else dictGet rest key

/-- `d[key] = val` on a Python dict: update in place (keeping the key's
original position) when present, append otherwise. -/
def dictInsert {α : Type} : List (String × α) → String → α → List (String × α)
  | [], key, val => [(key, val)]
  | (k, v) :: rest, key, val =>
      if k = key then (k, val) :: rest else (k, v) :: dictInsert rest key val

/-- Python `max(xs, key=f)` with accumulator: keeps the current maximum and
replaces it only on a strictly greater key, so the first maximal element of
the iteration order wins ties. -/
def pyMaxBy {α : Type} (key : α → ℚ) : α → List α → α
  | a, [] => a
  | a, b :: t => pyMaxBy key (if key a < key b then b else a) t

/-- Python two-argument `max` (returns the first argument on ties). -/
def pyMax (a b : ℚ) : ℚ := if a < b then b else a

/-- Python two-argument `min` (returns the first argument on ties). -/
def pyMin (a b : ℚ) : ℚ := if b < a then b else a

/-! ## Strings: lower-casing, substring containment, `isupper` -/

/-- Whether `needle` occurs at the front of `hay`. -/
def headMatch : List Char → List Char → Bool
  | [], _ => true
  | _ :: _, [] => false
  | a :: as, b :: bs => a == b && headMatch as bs

/-- Python `needle in hay`: substring containment. -/
def hasSub (needle : List Char) : List Char → Bool
  | [] => headMatch needle []
  | c :: rest => headMatch needle (c :: rest) || hasSub needle rest

/-- `str.lower()` (ASCII). -/
def lowerStr (s : List Char) : List Char := s.map Char.toLower

/-- Python `str.isupper()` for ASCII text: at least one cased (alphabetic)
character, and every cased character is upper-case. -/
def pyIsUpper (s : List Char) : Bool :=
  s.any (fun c => c.isAlpha) && s.all (fun c => !c.isAlpha || c.isUpper)

/-! ## The emotion registry (`EmotionDefinition`, `_initialize_emotion_definitions`)

Only the fields that any claim's behaviour depends on are modelled:
`intensity_range` and `duration_typical` (the decay window). The remaining
fields of the Python dataclass (`description`, `triggers`, `expressions`, …)
are lists of presentation strings never branched on by the operations under
verification. -/

structure EmotionDefinition where
  name : String
  intensity_range : ℚ × ℚ
  duration_typical : ℚ
deriving Repr, DecidableEq

/-- The table built by `_initialize_emotion_definitions`, in source order,
with each emotion's `intensity_range` and `duration_typical` transcribed from
`emotions.py`. -/
def emotion_definitions : List (String × EmotionDefinition) :=
  [ ("JOY",           ⟨"JOY",           (3/10, 1),    300⟩),
    ("EXCITEMENT",    ⟨"EXCITEMENT",    (4/10, 1),    600⟩),
    ("LOVE",          ⟨"LOVE",          (2/10, 9/10), 1800⟩),
    ("GRATITUDE",     ⟨"GRATITUDE",     (3/10, 8/10), 900⟩),
    ("CURIOSITY",     ⟨"CURIOSITY",     (4/10, 1),    1800⟩),
    ("WONDER",        ⟨"WONDER",        (3/10, 9/10), 1200⟩),
    ("CONFUSION",     ⟨"CONFUSION",     (2/10, 7/10), 300⟩),
    ("EMPATHY",       ⟨"EMPATHY",       (3/10, 9/10), 1800⟩),
    ("PRIDE",         ⟨"PRIDE",         (2/10, 7/10), 600⟩),
    ("HUMILITY",      ⟨"HUMILITY",      (3/10, 8/10), 900⟩),
    ("CONTENTMENT",   ⟨"CONTENTMENT",   (3/10, 7/10), 3600⟩),
    ("DETERMINATION", ⟨"DETERMINATION", (4/10, 9/10), 1200⟩),
    ("FRUSTRATION",   ⟨"FRUSTRATION",   (3/10, 8/10), 600⟩) ]

/-- `self.emotional_baseline` -/
def emotional_baseline : String := "CONTENTMENT"

/-- `self.emotion_definitions[self.emotional_baseline]`: the CONTENTMENT
definition, used as the fallback for unknown emotion ids. -/
def baselineDef : EmotionDefinition := ⟨"CONTENTMENT", (3/10, 7/10), 3600⟩

/-! ## The classifier (`analyze_prompt_emotion`) -/

/-- `EmotionalIntelligence.analyze_prompt_emotion`, an ordered chain of
keyword tests on the lower-cased prompt, with a question-mark fallback on the
original prompt. -/
def analyze_prompt_emotion (prompt : String) : String :=
  let pl := lowerStr prompt.toList
  if (["excited", "amazing", "wonderful", "fantastic", "incredible"] :
      List String).any (fun w => hasSub w.toList pl) then "EXCITEMENT"
  else if (["how", "why", "what", "explain", "tell me about", "curious"] :
      List String).any (fun w => hasSub w.toList pl) then "CURIOSITY"
  else if (["confused", "unclear", "don\x27t understand", "help"] :
      List String).any (fun w => hasSub w.toList pl) then "CONFUSION"
  else if (["thank", "appreciate", "grateful", "thanks"] :
      List String).any (fun w => hasSub w.toList pl) then "GRATITUDE"
  else if (["sad", "frustrated", "difficult", "struggling", "problem"] :
      List String).any (fun w => hasSub w.toList pl) then "EMPATHY"
  else if (["beautiful", "elegant", "fascinating", "remarkable"] :
      List String).any (fun w => hasSub w.toList pl) then "WONDER"
  else if hasSub ['?'] prompt.toList then "CURIOSITY"
  else "CONTENTMENT"

/-- Modelled from the spec: the classifier as an ORDERED list of
(keyword-set, emotion id) rules, for the refinement statement of the
classifier claim. -/
def classifierRules : List (List String × String) :=
  [ (["excited", "amazing", "wonderful", "fantastic", "incredible"], "EXCITEMENT"),
    (["how", "why", "what", "explain", "tell me about", "curious"], "CURIOSITY"),
    (["confused", "unclear", "don\x27t understand", "help"], "CONFUSION"),
    (["thank", "appreciate", "grateful", "thanks"], "GRATITUDE"),
    (["sad", "frustrated", "difficult", "struggling", "problem"], "EMPATHY"),
    (["beautiful", "elegant", "fascinating", "remarkable"], "WONDER") ]

/-- First rule of `rules` whose keyword set matches the lower-cased text. -/
def firstRuleMatch (pl : List Char) : List (List String × String) → Option String
  | [] => none
  | (ws, e) :: rest =>
      if ws.any (fun w => hasSub w.toList pl) then some e else firstRuleMatch pl rest

/-- Modelled from the spec: lower-case the text, return the id of the first
matching rule; if no rule matches, CURIOSITY when the text contains a
question mark, otherwise the baseline. -/
def classifySpec (prompt : String) : String :=
  match firstRuleMatch (lowerStr prompt.toList) classifierRules with
  | some e => e
  | none => if hasSub ['?'] prompt.toList then "CURIOSITY" else emotional_baseline

/-! ## The emotional state tracker -/

/-- The mutable state of `EmotionalIntelligence` relevant to the claims:
`self.current_emotions` (emotion id → intensity, insertion-ordered) and
`self.emotion_history` (list of `(timestamp, emotion, intensity, context)`,
appended at the end). -/
structure EmoState where
  current_emotions : List (String × ℚ)
  emotion_history : List (ℚ × String × ℚ × String)
deriving Repr

/-- The state right after `__init__`: baseline CONTENTMENT at 0.5, empty
history. -/
def initEmoState : EmoState := ⟨[(emotional_baseline, 1/2)], []⟩

/-- `EmotionalIntelligence.express_emotion` (the state-changing part): looks
up the definition with the baseline as fallback, clamps the intensity to the
definition's `intensity_range`, upserts `current_emotions` and appends to
`emotion_history`. Returns the clamped (`actual_intensity`) value with the
new state; the rest of the returned dict is presentation data not modelled. -/
def express_emotion (now : ℚ) (emotion : String) (context : String)
    (intensity : ℚ) (s : EmoState) : ℚ × EmoState :=
  let emotion_def := (dictGet emotion_definitions emotion).getD baselineDef
  let actual_intensity :=
    pyMax emotion_def.intensity_range.1 (pyMin emotion_def.intensity_range.2 intensity)
  (actual_intensity,
    { current_emotions := dictInsert s.current_emotions emotion actual_intensity,
      emotion_history := s.emotion_history ++ [(now, emotion, actual_intensity, context)] })

/-- `EmotionalIntelligence.analyze_text_emotion` (the state-changing part):
classifies the text, derives an intensity from `0.5` plus bonuses for `'!'`,
all-upper-case text and length `> 100`, clamps it to `[0.1, 1.0]`, upserts
`current_emotions` and appends to `emotion_history` (context truncated to 50
characters). Returns `(primary_emotion, intensity, new state)`; the
`confidence` field of the Python return value is random and not modelled. -/
def analyze_text_emotion (now : ℚ) (text : String) (s : EmoState) :
    String × ℚ × EmoState :=
  let emotion := analyze_prompt_emotion text
  let i1 : ℚ := if hasSub ['!'] text.toList then 1/2 + 2/10 else 1/2
  let i2 : ℚ := if pyIsUpper text.toList then i1 + 3/10 else i1
  let i3 : ℚ := if 100 < text.length then i2 + 1/10 else i2
  let intensity : ℚ := pyMin 1 (pyMax (1/10) i3)
  (emotion, intensity,
    { current_emotions := dictInsert s.current_emotions emotion intensity,
      emotion_history :=
        s.emotion_history ++ [(now, emotion, intensity, String.mk (text.toList.take 50))] })

/-- The per-entry body of the loop in `_decay_emotions`: `none` means the
entry is put on `emotions_to_remove`, `some` is the (possibly updated)
entry. An entry whose id has no definition is left untouched (the
`if emotion_def:` guard). -/
def decayEntry (now : ℚ) (hist : List (ℚ × String × ℚ × String))
    (entry : String × ℚ) : Option (String × ℚ) :=
  match dictGet emotion_definitions entry.1 with
  | none => some entry
  | some d =>
      match hist.filter (fun r =>
          r.2.1 == entry.1 && decide (now - r.1 < d.duration_typical * 2)) with
      | [] => none
      | r0 :: rs =>
          let latest := pyMaxBy (fun r => r.1) r0 rs
          let time_elapsed := now - latest.1
          let decay_factor := pyMax 0 (1 - time_elapsed / d.duration_typical)
          let new_intensity := entry.2 * decay_factor
          if new_intensity < 1/10 then none else some (entry.1, new_intensity)

/-- `_decay_emotions` before the reseed step: each entry is decayed or
dropped; iteration order (= insertion order) is preserved, and updates during
the Python loop do not affect other entries' decisions, so the loop plus the
deferred deletions is exactly this `filterMap`. -/
def pruneEmotions (now : ℚ) (s : EmoState) : List (String × ℚ) :=
  s.current_emotions.filterMap (decayEntry now s.emotion_history)

/-- `EmotionalIntelligence._decay_emotions`: prune, then reseed the baseline
at 0.5 if the active set became empty. -/
def decayEmotions (now : ℚ) (s : EmoState) : EmoState :=
  { s with current_emotions :=
      if pruneEmotions now s = [] then [(emotional_baseline, 1/2)]
      else pruneEmotions now s }

/-- `EmotionalIntelligence.get_current_state`: decay, then
`max(items, key=λ x: x[1])[0]` (first maximal entry in insertion order); the
`if not self.current_emotions` fallback to the baseline is kept from the
source even though it is unreachable after the reseed. -/
def get_current_state (now : ℚ) (s : EmoState) : String × EmoState :=
  let s2 := decayEmotions now s
  match s2.current_emotions with
  | [] => (emotional_baseline, s2)
  | e :: es => ((pyMaxBy (fun x => x.2) e es).1, s2)

/-! ## The knowledge store (`knowledge.py`)

JSON-representable Python values are modelled by `Json`; `json.dump` followed
by `json.load` is the identity on such values (object key order included), so
the persisted file is modelled as the JSON value it holds rather than its
text. -/

inductive Json where
  | null : Json
  | bool : Bool → Json
  | num : ℚ → Json
  | str : String → Json
  | arr : List Json → Json
  | obj : List (String × Json) → Json
deriving Repr

/-- `data.get(key)` when `data` is the parsed JSON document: `none` when
`data` is not an object or lacks the key. -/
def getField (j : Json) (key : String) : Option Json :=
  match j with
  | Json.obj kvs => dictGet kvs key
  | _ => none

/-- Coerce a JSON value to an object's fields (the shape `knowledge` always
has in files written by `_save_knowledge`). -/
def objFields (j : Json) : List (String × Json) :=
  match j with
  | Json.obj kvs => kvs
  | _ => []

/-- Coerce a JSON value to an array's items (the shape `interactions` always
has in files written by `_save_knowledge`). -/
def arrItems (j : Json) : List Json :=
  match j with
  | Json.arr xs => xs
  | _ => []

/-- `type(value).__name__` on the modelled values; Python ints and floats
both collapse to `Json.num`, and no claim distinguishes the two tags. -/
def pyTypeName : Json → String
  | Json.null => "NoneType"
  | Json.bool _ => "bool"
  | Json.num _ => "float"
  | Json.str _ => "str"
  | Json.arr _ => "list"
  | Json.obj _ => "dict"

/-- The in-memory state of `KnowledgeManager`: `self.knowledge_base` (key →
wrapper dict) and `self.interactions`. -/
structure KState where
  knowledge_base : List (String × Json)
  interactions : List Json
deriving Repr

/-- The knowledge file: `none` when the file does not exist, otherwise the
JSON document it holds. -/
structure KFile where
  contents : Option Json
deriving Repr

/-- The wrapper dict `{'value': …, 'timestamp': …, 'type': …}` built by
`store_knowledge`; the wall-clock ISO timestamp is passed in as `ts`. -/
def wrapEntry (value : Json) (ts : String) : Json :=
  Json.obj [("value", value), ("timestamp", Json.str ts),
            ("type", Json.str (pyTypeName value))]

/-- `KnowledgeManager._save_knowledge`: on success the file is replaced
wholesale by the document `{knowledge, interactions, last_updated}`; on a
write failure (`writeOk = false`) the exception is swallowed (`except
Exception: pass`) and the file keeps its previous contents. The call itself
never raises. -/
def save_knowledge (writeOk : Bool) (ts : String) (s : KState) (f : KFile) : KFile :=
  if writeOk then
    ⟨some (Json.obj [("knowledge", Json.obj s.knowledge_base),
                     ("interactions", Json.arr s.interactions),
                     ("last_updated", Json.str ts)])⟩
  else f

/-- `KnowledgeManager.store_knowledge`: updates the in-memory entry, then
saves. The `try` body cannot raise — the dict update, `datetime.now()
.isoformat()` and `type(value).__name__` are total, and `_save_knowledge`
swallows its own exceptions — so the `except Exception: return False` branch
is unreachable and the result is always `true`. -/
def store_knowledge (writeOk : Bool) (ts : String) (key : String) (value : Json)
    (s : KState) (f : KFile) : Bool × KState × KFile :=
  let s2 : KState :=
    { s with knowledge_base := dictInsert s.knowledge_base key (wrapEntry value ts) }
  (true, s2, save_knowledge writeOk ts s2 f)

/-- `KnowledgeManager.retrieve_knowledge`: `entry['value']` of the stored
wrapper, `none` when the key is absent. (For the wrappers written by
`store_knowledge` the `"value"` field is always present.) -/
def retrieve_knowledge (key : String) (s : KState) : Option Json :=
  match dictGet s.knowledge_base key with
  | some entry => getField entry "value"
  | none => none

/-- `KnowledgeManager._load_knowledge` applied to the state `s` left by field
initialization: when the file exists, `knowledge` and `interactions` are read
with `data.get(…, default)`; when it does not, the initialized fields are
kept. A malformed document (non-object `data`) makes the Python code raise
inside the `try` and reset both fields to empty, which coincides with the
`getField`/`objFields` coercions returning the empty defaults. -/
def load_knowledge (f : KFile) (s : KState) : KState :=
  match f.contents with
  | none => s
  | some data =>
      { knowledge_base := objFields ((getField data "knowledge").getD (Json.obj [])),
        interactions := arrItems ((getField data "interactions").getD (Json.arr [])) }

/-- The state right after `KnowledgeManager.__init__` given the file `f`:
empty fields, then `_load_knowledge`. -/
def initKState (f : KFile) : KState := load_knowledge f ⟨[], []⟩

/-! ## Helper lemmas -/

theorem pyMax_eq_max (a b : ℚ) : pyMax a b = max a b := by
  unfold pyMax
  rcases lt_trichotomy a b with h | h | h
  · rw [if_pos h, max_eq_right h.le]
  · subst h; rw [if_neg (lt_irrefl a), max_self]
  · rw [if_neg (not_lt_of_gt h), max_eq_left h.le]

theorem pyMin_eq_min (a b : ℚ) : pyMin a b = min a b := by
  unfold pyMin
  rcases lt_trichotomy b a with h | h | h
  · rw [if_pos h, min_eq_right h.le]
  · subst h; rw [if_neg (lt_irrefl b), min_self]
  · rw [if_neg (not_lt_of_gt h), min_eq_left h.le]

theorem dictGet_dictInsert_self {α : Type} (l : List (String × α)) (k : String) (v : α) :
    dictGet (dictInsert l k v) k = some v := by
  induction l with
  | nil => simp [dictInsert, dictGet]
  | cons p t ih =>
      obtain ⟨pk, pv⟩ := p
      by_cases h : pk = k
      · simp [dictInsert, dictGet, h]
      · simp [dictInsert, dictGet, h, ih]

/-- `decayEntry` never changes an entry's key. -/
theorem decayEntry_key {now : ℚ} {hist : List (ℚ × String × ℚ × String)}
    {e r : String × ℚ} (h : decayEntry now hist e = some r) : r.1 = e.1 := by
  unfold decayEntry at h
  split at h
  · simp only [Option.some.injEq] at h
    rw [← h]
  · split at h
    · simp at h
    · simp only [] at h
      split at h
      · simp at h
      · simp only [Option.some.injEq] at h
        rw [← h]

theorem dictGet_mem {α : Type} {l : List (String × α)} {id : String} {v : α}
    (h : dictGet l id = some v) : (id, v) ∈ l := by
  induction l with
  | nil => simp [dictGet] at h
  | cons p t ih =>
      obtain ⟨pk, pv⟩ := p
      rw [dictGet] at h
      by_cases hk : pk = id
      · rw [if_pos hk] at h
        injection h with h
        rw [← hk, ← h]
        exact List.mem_cons_self _ _
      · rw [if_neg hk] at h
        exact List.mem_cons_of_mem _ (ih h)

theorem dictGet_filterMap_of_notMem {l : List (String × ℚ)} {id : String}
    (h : id ∉ l.map Prod.fst) (now : ℚ) (hist : List (ℚ × String × ℚ × String)) :
    dictGet (l.filterMap (decayEntry now hist)) id = none := by
  induction l with
  | nil => rfl
  | cons p t ih =>
      simp only [List.map_cons, List.mem_cons] at h
      push_neg at h
      obtain ⟨hk, ht⟩ := h
      rw [List.filterMap_cons]
      cases hd : decayEntry now hist p with
      | none => exact ih ht
      | some r =>
          obtain ⟨rk, rv⟩ := r
          have hr : rk = p.1 := decayEntry_key hd
          rw [dictGet, if_neg (by rw [hr]; exact fun hh => hk hh.symm)]
          exact ih ht

/-- Looking up `id` in the decayed map, given its entry `(id, i)` in the
original map (keys unique), is exactly the per-entry decay of `(id, i)`. -/
theorem dictGet_filterMap_decay {l : List (String × ℚ)} {id : String} {i : ℚ}
    (hnd : (l.map Prod.fst).Nodup) (h : dictGet l id = some i)
    (now : ℚ) (hist : List (ℚ × String × ℚ × String)) :
    dictGet (l.filterMap (decayEntry now hist)) id =
      Option.map Prod.snd (decayEntry now hist (id, i)) := by
  induction l with
  | nil => simp [dictGet] at h
  | cons p t ih =>
      obtain ⟨pk, pv⟩ := p
      simp only [List.map_cons, List.nodup_cons] at hnd
      obtain ⟨hpk, hndt⟩ := hnd
      by_cases hk : pk = id
      · subst hk
        rw [dictGet, if_pos rfl] at h
        injection h with h
        subst h
        cases hd : decayEntry now hist (pk, pv) with
        | none =>
            rw [List.filterMap_cons_none hd, dictGet_filterMap_of_notMem hpk]
            rfl
        | some r =>
            obtain ⟨rk, rv⟩ := r
            have hr : rk = pk := decayEntry_key hd
            subst hr
            rw [List.filterMap_cons_some hd, dictGet, if_pos rfl]
            rfl
      · rw [dictGet, if_neg hk] at h
        cases hd : decayEntry now hist (pk, pv) with
        | none => rw [List.filterMap_cons_none hd]; exact ih hndt h
        | some r =>
            obtain ⟨rk, rv⟩ := r
            have hr : rk = pk := decayEntry_key hd
            rw [List.filterMap_cons_some hd, dictGet, if_neg (by rw [hr]; exact hk)]
            exact ih hndt h

theorem pyMaxBy_mem {α : Type} (key : α → ℚ) (a : α) (l : List α) :
    pyMaxBy key a l ∈ a :: l := by
  induction l generalizing a with
  | nil => rw [pyMaxBy]; exact List.mem_cons_self a []
  | cons b t ih =>
      rw [pyMaxBy]
      have h := ih (if key a < key b then b else a)
      rcases List.mem_cons.mp h with h1 | h1
      · rw [h1]
        split
        · exact List.mem_cons_of_mem a (List.mem_cons_self b t)
        · exact List.mem_cons_self a _
      · exact List.mem_cons_of_mem a (List.mem_cons_of_mem b h1)

theorem pyMaxBy_le {α : Type} (key : α → ℚ) (a : α) (l : List α) :
    ∀ x ∈ a :: l, key x ≤ key (pyMaxBy key a l) := by
  induction l generalizing a with
  | nil =>
      intro x hx
      rcases List.mem_cons.mp hx with h | h
      · subst h; rw [pyMaxBy]
      · simp at h
  | cons b t ih =>
      intro x hx
      rw [pyMaxBy]
      by_cases hab : key a < key b
      · rw [if_pos hab]
        rcases List.mem_cons.mp hx with h | h
        · subst h
          exact le_trans hab.le (ih b b (List.mem_cons_self b t))
        · rcases List.mem_cons.mp h with h1 | h1
          · subst h1
            exact ih x x (List.mem_cons_self x t)
          · exact ih b x (List.mem_cons_of_mem b h1)
      · rw [if_neg hab]
        rcases List.mem_cons.mp hx with h | h
        · subst h
          exact ih x x (List.mem_cons_self x t)
        · rcases List.mem_cons.mp h with h1 | h1
          · subst h1
            exact le_trans (le_of_not_lt hab) (ih a a (List.mem_cons_self a t))
          · exact ih a x (List.mem_cons_of_mem a h1)

/-- The Python `max` over a list sits at a position all of whose predecessors
have strictly smaller keys (first maximal element wins ties). -/
theorem pyMaxBy_decomp {α : Type} (key : α → ℚ) (a : α) (l : List α) :
    ∃ pre post, a :: l = pre ++ pyMaxBy key a l :: post ∧
      ∀ x ∈ pre, key x < key (pyMaxBy key a l) := by
  induction l generalizing a with
  | nil => exact ⟨[], [], by rw [pyMaxBy, List.nil_append], by simp⟩
  | cons b t ih =>
      rw [pyMaxBy]
      by_cases hab : key a < key b
      · rw [if_pos hab]
        obtain ⟨pre, post, hdec, hlt⟩ := ih b
        refine ⟨a :: pre, post, ?_, ?_⟩
        · rw [List.cons_append, ← hdec]
        · intro x hx
          rcases List.mem_cons.mp hx with h | h
          · subst h
            exact lt_of_lt_of_le hab (pyMaxBy_le key b t b (List.mem_cons_self b t))
          · exact hlt x h
      · rw [if_neg hab]
        obtain ⟨pre, post, hdec, hlt⟩ := ih a
        cases pre with
        | nil =>
            simp only [List.nil_append] at hdec
            injection hdec with h1 h2
            refine ⟨[], b :: t, ?_, ?_⟩
            · rw [List.nil_append, ← h1]
            · simp
        | cons q pre2 =>
            rw [List.cons_append] at hdec
            injection hdec with h1 h2
            subst h1
            refine ⟨a :: b :: pre2, post, ?_, ?_⟩
            · rw [List.cons_append, List.cons_append, ← h2]
            · intro x hx
              have hqm : key a < key (pyMaxBy key a t) :=
                hlt a (List.mem_cons_self a pre2)
              rcases List.mem_cons.mp hx with h | h
              · subst h; exact hqm
              · rcases List.mem_cons.mp h with h3 | h3
                · subst h3
                  exact lt_of_le_of_lt (le_of_not_lt hab) hqm
                · exact hlt x (List.mem_cons_of_mem a h3)

/-- Every definition in the registry has `min ≤ max` intensity bounds. -/
theorem emotion_definitions_range_le {id : String} {d : EmotionDefinition}
    (h : dictGet emotion_definitions id = some d) :
    d.intensity_range.1 ≤ d.intensity_range.2 := by
  have hm := dictGet_mem h
  have hall : ∀ p ∈ emotion_definitions,
      p.2.intensity_range.1 ≤ p.2.intensity_range.2 := by
    intro p hp
    fin_cases hp <;> norm_num [emotion_definitions]
  exact hall (id, d) hm

/-! ## Claims -/

/-- Claim C5: the classifier lower-cases the input and evaluates an ordered
list of keyword rules, returning the emotion id of the first rule with a
matching keyword (earlier rules shadow later ones); if no rule matches it
returns CURIOSITY when the text contains a question mark and CONTENTMENT
otherwise. Concretely it maps "I'm so excited and curious" to EXCITEMENT,
"What is recursion?" to CURIOSITY and "ok." to CONTENTMENT. -/
theorem claim_C5_classifier :
    (∀ p : String, analyze_prompt_emotion p = classifySpec p) ∧
    analyze_prompt_emotion "I\x27m so excited and curious" = "EXCITEMENT" ∧
    analyze_prompt_emotion "What is recursion?" = "CURIOSITY" ∧
    analyze_prompt_emotion "ok." = "CONTENTMENT" := by
  refine ⟨?_, rfl, rfl, rfl⟩
  intro p
  unfold analyze_prompt_emotion classifySpec classifierRules
  simp only [firstRuleMatch]
  split_ifs <;> rfl

/-- Claim C2: immediately after any decay pass the active emotion set is
non-empty; when the prune step removed every entry, the baseline CONTENTMENT
entry at intensity 0.5 has been reseeded before the pass returns. -/
theorem claim_C2_nonempty_after_decay :
    ∀ (now : ℚ) (s : EmoState),
      (decayEmotions now s).current_emotions ≠ [] ∧
      (pruneEmotions now s = [] →
        (decayEmotions now s).current_emotions = [(emotional_baseline, 1/2)]) := by
  intro now s
  unfold decayEmotions
  dsimp only
  by_cases h : pruneEmotions now s = []
  · rw [if_pos h]
    exact ⟨List.cons_ne_nil _ _, fun _ => rfl⟩
  · rw [if_neg h]
    exact ⟨h, fun hh => absurd hh h⟩

/-- Witness for C2 at a concrete state in which the prune removes
everything: the set after decay is exactly the reseeded baseline. -/
theorem claim_C2_witness :
    (decayEmotions 0 ⟨[], []⟩).current_emotions ≠ [] ∧
    (decayEmotions 0 ⟨[], []⟩).current_emotions = [(emotional_baseline, 1/2)] :=
  ⟨(claim_C2_nonempty_after_decay 0 ⟨[], []⟩).1,
   (claim_C2_nonempty_after_decay 0 ⟨[], []⟩).2 rfl⟩

/-- Claim C8: express_emotion clamps the supplied intensity to the emotion's
declared bounds before storing it, and upserts the active entry — the stored
value replaces any prior intensity and is independent of the previous state
(no averaging); a matching history record is appended. In particular
express_emotion(JOY, 5.0) stores JOY's upper bound 1.0, never the raw 5.0. -/
theorem claim_C8_record_clamps :
    (∀ (now : ℚ) (id ctx : String) (x : ℚ) (s : EmoState) (d : EmotionDefinition),
      dictGet emotion_definitions id = some d →
        (express_emotion now id ctx x s).1 =
          pyMax d.intensity_range.1 (pyMin d.intensity_range.2 x) ∧
        dictGet (express_emotion now id ctx x s).2.current_emotions id =
          some (pyMax d.intensity_range.1 (pyMin d.intensity_range.2 x)) ∧
        (express_emotion now id ctx x s).2.emotion_history =
          s.emotion_history ++
            [(now, id, pyMax d.intensity_range.1 (pyMin d.intensity_range.2 x), ctx)]) ∧
    (∀ (now : ℚ) (ctx : String) (s : EmoState),
      dictGet (express_emotion now "JOY" ctx 5 s).2.current_emotions "JOY" = some 1) := by
  constructor
  · intro now id ctx x s d hd
    unfold express_emotion
    rw [hd]
    exact ⟨rfl, dictGet_dictInsert_self _ _ _, rfl⟩
  · intro now ctx s
    have hJ : dictGet emotion_definitions "JOY" =
        some (⟨"JOY", (3/10, 1), 300⟩ : EmotionDefinition) := by
      simp [dictGet, emotion_definitions]
    unfold express_emotion
    rw [hJ]
    dsimp only [Option.getD]
    rw [dictGet_dictInsert_self]
    norm_num [pyMax, pyMin]

/-- Witness for C8: the concrete JOY/5.0 clamp, and the GRATITUDE clamp at
0.9 hitting its 0.8 upper bound, both via the theorem. -/
theorem claim_C8_witness :
    dictGet (express_emotion 0 "JOY" "" 5 initEmoState).2.current_emotions "JOY" = some 1 ∧
    (express_emotion 0 "GRATITUDE" "" (9/10) initEmoState).1 = 8/10 := by
  constructor
  · exact claim_C8_record_clamps.2 0 "" initEmoState
  · have h := (claim_C8_record_clamps.1 0 "GRATITUDE" "" (9/10) initEmoState
        ⟨"GRATITUDE", (3/10, 8/10), 900⟩ (by simp [dictGet, emotion_definitions])).1
    rw [h]
    norm_num [pyMax, pyMin]

/-- Claim C4 counterexample: at a concrete input whose persistence write
fails, store_knowledge still returns True — the write error is swallowed
inside _save_knowledge — so "returns failure (false) when the persistence
write fails" is false on the code. -/
theorem claim_C4_counterexample :
    ¬ ((store_knowledge false "2024-01-01" "k" (Json.num 1) ⟨[], []⟩ ⟨none⟩).1 = false) := by
  simp [store_knowledge]

/-- Claim C4 as amended: store_knowledge always returns true, even when the
persistence write fails (the error never escapes _save_knowledge); the
in-memory entry is updated either way, and on a failed write the persisted
file is left unchanged, so file and memory may diverge. -/
theorem claim_C4_amended_always_true :
    ∀ (writeOk : Bool) (ts key : String) (value : Json) (s : KState) (f : KFile),
      (store_knowledge writeOk ts key value s f).1 = true ∧
      dictGet (store_knowledge writeOk ts key value s f).2.1.knowledge_base key =
        some (wrapEntry value ts) ∧
      (writeOk = false → (store_knowledge writeOk ts key value s f).2.2 = f) := by
  intro writeOk ts key value s f
  refine ⟨rfl, ?_, ?_⟩
  · exact dictGet_dictInsert_self _ _ _
  · intro hw
    subst hw
    rfl

/-- Witness for the amended C4 at the counterexample's input. -/
theorem claim_C4_witness :
    (store_knowledge false "t" "k" Json.null ⟨[], []⟩ ⟨none⟩).1 = true ∧
    (store_knowledge false "t" "k" Json.null ⟨[], []⟩ ⟨none⟩).2.2 = ⟨none⟩ :=
  ⟨(claim_C4_amended_always_true false "t" "k" Json.null ⟨[], []⟩ ⟨none⟩).1,
   (claim_C4_amended_always_true false "t" "k" Json.null ⟨[], []⟩ ⟨none⟩).2.2 rfl⟩

/-- Claim C9: the persisted knowledge document round-trips — saving any
in-memory state and loading the written file back yields an equal in-memory
state; concretely, storing [1,2,3] under "k" and re-initializing a manager
from the written file makes retrieval of "k" return [1,2,3]. -/
theorem claim_C9_roundtrip :
    (∀ (s : KState) (f : KFile) (ts : String) (s0 : KState),
      load_knowledge (save_knowledge true ts s f) s0 = s) ∧
    retrieve_knowledge "k"
      (initKState (store_knowledge true "t" "k"
        (Json.arr [Json.num 1, Json.num 2, Json.num 3]) ⟨[], []⟩ ⟨none⟩).2.2) =
      some (Json.arr [Json.num 1, Json.num 2, Json.num 3]) := by
  constructor
  · intro s f ts s0
    rfl
  · rfl

/-- After a decay pass the active set is never the empty list. -/
theorem decayEmotions_ne_nil (now : ℚ) (s : EmoState) :
    (decayEmotions now s).current_emotions ≠ [] := by
  unfold decayEmotions
  dsimp only
  split
  · exact List.cons_ne_nil _ _
  · next h => exact h

/-- Looking up a defined emotion in the pruned map when its filtered recent
history is empty: the entry is gone. -/
theorem prune_lookup_empty {s : EmoState} {now : ℚ} {id : String} {i : ℚ}
    {d : EmotionDefinition}
    (hnd : (s.current_emotions.map Prod.fst).Nodup)
    (hi : dictGet s.current_emotions id = some i)
    (hd : dictGet emotion_definitions id = some d)
    (hfil : s.emotion_history.filter (fun r =>
        r.2.1 == id && decide (now - r.1 < d.duration_typical * 2)) = []) :
    dictGet (pruneEmotions now s) id = none := by
  unfold pruneEmotions
  rw [dictGet_filterMap_decay hnd hi now s.emotion_history]
  unfold decayEntry
  dsimp only
  rw [hd]
  dsimp only
  rw [hfil]
  rfl

/-- Looking up a defined emotion in the pruned map when its filtered recent
history is non-empty: the decayed value, or removal below the 0.1 floor. -/
theorem prune_lookup {s : EmoState} {now : ℚ} {id : String} {i : ℚ}
    {d : EmotionDefinition}
    (hnd : (s.current_emotions.map Prod.fst).Nodup)
    (hi : dictGet s.current_emotions id = some i)
    (hd : dictGet emotion_definitions id = some d)
    {r0 : ℚ × String × ℚ × String} {rs : List (ℚ × String × ℚ × String)}
    (hfil : s.emotion_history.filter (fun r =>
        r.2.1 == id && decide (now - r.1 < d.duration_typical * 2)) = r0 :: rs) :
    dictGet (pruneEmotions now s) id =
      if i * pyMax 0 (1 - (now - (pyMaxBy (fun r => r.1) r0 rs).1) / d.duration_typical)
          < 1/10 then none
      else some (i * pyMax 0
        (1 - (now - (pyMaxBy (fun r => r.1) r0 rs).1) / d.duration_typical)) := by
  unfold pruneEmotions
  rw [dictGet_filterMap_decay hnd hi now s.emotion_history]
  unfold decayEntry
  dsimp only
  rw [hd]
  dsimp only
  rw [hfil]
  dsimp only
  split
  · rfl
  · rfl

/-- The removal threshold of the decay formula: the decayed intensity drops
below the 0.1 floor exactly when the elapsed time exceeds
`w × (1 − 0.1/i)`. -/
theorem decay_threshold (i w e : ℚ) (hw : 0 < w) (hi : 0 < i) :
    (i * pyMax 0 (1 - e / w) < 1/10) ↔ (w * (1 - 1/(10*i)) < e) := by
  rw [pyMax_eq_max]
  have h10i : (0:ℚ) < 10 * i := by linarith
  rcases le_or_lt (1 - e / w) 0 with h1 | h1
  · rw [max_eq_left h1, mul_zero]
    have hew : w ≤ e := by
      rw [sub_nonpos] at h1
      exact (one_le_div hw).mp h1
    have hfrac : (0:ℚ) < 1/(10*i) := by positivity
    constructor
    · intro _
      nlinarith
    · intro _
      norm_num
  · rw [max_eq_right h1.le]
    have hid1 : i * (1 - e/w) * w = i * w - i * e := by
      field_simp
      ring
    have hid2 : w * (1 - 1/(10*i)) * (10 * i) = 10 * i * w - w := by
      field_simp
      ring
    constructor
    · intro h
      have h2 : i * (1 - e/w) * w < (1/10) * w := by
        exact mul_lt_mul_of_pos_right h hw
      rw [hid1] at h2
      have h3 : w * (1 - 1/(10*i)) * (10 * i) < e * (10 * i) := by
        rw [hid2]
        nlinarith
      exact lt_of_mul_lt_mul_right h3 (le_of_lt h10i)
    · intro h
      have h2 : w * (1 - 1/(10*i)) * (10 * i) < e * (10 * i) := by
        exact mul_lt_mul_of_pos_right h h10i
      rw [hid2] at h2
      have h3 : i * (1 - e/w) * w < (1/10) * w := by
        rw [hid1]
        nlinarith
      exact lt_of_mul_lt_mul_right h3 (le_of_lt hw)

/-- Claim C1: a decay pass, for an active entry whose emotion id has a
definition with decay window `w = duration_typical`, searches the history for
records of that id within `2 × w` of `now`; with no such record the entry is
removed from the pruned set; otherwise, taking the most recent such record
(`latest`), the new intensity is `intensity × max(0, 1 − (now −
latest.timestamp)/w)`, the entry being removed when that value is `< 0.1` and
updated to it otherwise. -/
theorem claim_C1_decay_per_entry :
    ∀ (s : EmoState) (now : ℚ) (id : String) (i : ℚ) (d : EmotionDefinition),
      (s.current_emotions.map Prod.fst).Nodup →
      dictGet s.current_emotions id = some i →
      dictGet emotion_definitions id = some d →
      (s.emotion_history.filter (fun r =>
          r.2.1 == id && decide (now - r.1 < d.duration_typical * 2)) = [] →
        dictGet (pruneEmotions now s) id = none) ∧
      (∀ latest,
        latest ∈ s.emotion_history.filter (fun r =>
          r.2.1 == id && decide (now - r.1 < d.duration_typical * 2)) →
        (∀ q ∈ s.emotion_history.filter (fun r =>
          r.2.1 == id && decide (now - r.1 < d.duration_typical * 2)), q.1 ≤ latest.1) →
        (i * pyMax 0 (1 - (now - latest.1) / d.duration_typical) < 1/10 →
            dictGet (pruneEmotions now s) id = none) ∧
        (¬ i * pyMax 0 (1 - (now - latest.1) / d.duration_typical) < 1/10 →
            dictGet (pruneEmotions now s) id =
              some (i * pyMax 0 (1 - (now - latest.1) / d.duration_typical)))) := by
  intro s now id i d hnd hi hd
  constructor
  · intro hfe
    exact prune_lookup_empty hnd hi hd hfe
  · intro latest hmem hmax
    rcases hfil : s.emotion_history.filter (fun r =>
        r.2.1 == id && decide (now - r.1 < d.duration_typical * 2)) with _ | ⟨r0, rs⟩
    · rw [hfil] at hmem
      exact absurd hmem (List.not_mem_nil latest)
    · have hlook := prune_lookup hnd hi hd hfil
      have hts : (pyMaxBy (fun r => r.1) r0 rs).1 = latest.1 := by
        apply le_antisymm
        · rw [hfil] at hmax
          exact hmax _ (pyMaxBy_mem (fun r => r.1) r0 rs)
        · rw [hfil] at hmem
          exact pyMaxBy_le (fun r => r.1) r0 rs latest hmem
      rw [hts] at hlook
      constructor
      · intro hlt
        rw [hlook, if_pos hlt]
      · intro hge
        rw [hlook, if_neg hge]

/-- Witness for C1: JOY recorded at time 0 with intensity 0.5, decayed at
time 150 within its 300-second window, is kept at the exact decayed value
0.25. -/
theorem claim_C1_witness :
    dictGet (pruneEmotions 150 ⟨[("JOY", 1/2)], [(0, "JOY", 1/2, "hi")]⟩) "JOY" =
      some ((1/2 : ℚ) * pyMax 0 (1 - (150 - 0) / 300)) := by
  have h := claim_C1_decay_per_entry ⟨[("JOY", 1/2)], [(0, "JOY", 1/2, "hi")]⟩ 150
      "JOY" (1/2) ⟨"JOY", (3/10, 1), 300⟩
      (by simp)
      (by simp [dictGet])
      (by simp [dictGet, emotion_definitions])
  have hfil : ([(0, "JOY", 1/2, "hi")] : List (ℚ × String × ℚ × String)).filter
      (fun r => r.2.1 == "JOY" && decide ((150:ℚ) - r.1 < 300 * 2)) =
      [(0, "JOY", 1/2, "hi")] := by
    norm_num [List.filter]
  exact (h.2 (0, "JOY", 1/2, "hi")
      (by rw [hfil]; exact List.mem_cons_self _ _)
      (by rw [hfil]; intro q hq; rcases List.mem_cons.mp hq with h1 | h1
          · rw [h1]
          · exact absurd h1 (List.not_mem_nil q))).2
    (by norm_num [pyMax])

/-- Claim C3: decay is monotone and removal happens at the threshold — for an
active entry with intensity `i > 0` and decay window `w > 0` whose most
recent in-window history record has timestamp `t ≤ now`, a decay pass leaves
the entry removed exactly when `now − t` exceeds `w × (1 − 0.1/i)`
(equivalently, exactly when the decayed intensity falls below 0.1), and any
surviving value equals `i × (1 − (now − t)/w)` and never exceeds `i`, so
repeated passes at increasing times yield a non-increasing intensity. -/
theorem claim_C3_decay_monotone :
    ∀ (s : EmoState) (now : ℚ) (id : String) (i : ℚ) (d : EmotionDefinition) (t : ℚ),
      (s.current_emotions.map Prod.fst).Nodup →
      dictGet s.current_emotions id = some i →
      dictGet emotion_definitions id = some d →
      0 < d.duration_typical →
      0 < i →
      (∃ latest,
        latest ∈ s.emotion_history.filter (fun r =>
          r.2.1 == id && decide (now - r.1 < d.duration_typical * 2)) ∧
        latest.1 = t ∧
        (∀ q ∈ s.emotion_history.filter (fun r =>
          r.2.1 == id && decide (now - r.1 < d.duration_typical * 2)), q.1 ≤ latest.1)) →
      t ≤ now →
      ((dictGet (pruneEmotions now s) id = none ↔
          d.duration_typical * (1 - 1/(10*i)) < now - t) ∧
       (∀ j, dictGet (pruneEmotions now s) id = some j →
          j = i * (1 - (now - t)/d.duration_typical) ∧ j ≤ i)) := by
  intro s now id i d t hnd hi hd hw hipos hex htn
  obtain ⟨latest, hmem, hlt, hmax⟩ := hex
  rcases hfil : s.emotion_history.filter (fun r =>
      r.2.1 == id && decide (now - r.1 < d.duration_typical * 2)) with _ | ⟨r0, rs⟩
  · rw [hfil] at hmem
    exact absurd hmem (List.not_mem_nil latest)
  · have hlook := prune_lookup hnd hi hd hfil
    have hts : (pyMaxBy (fun r => r.1) r0 rs).1 = t := by
      rw [← hlt]
      apply le_antisymm
      · rw [hfil] at hmax
        exact hmax _ (pyMaxBy_mem (fun r => r.1) r0 rs)
      · rw [hfil] at hmem
        exact pyMaxBy_le (fun r => r.1) r0 rs latest hmem
    rw [hts] at hlook
    have hthr := decay_threshold i d.duration_typical (now - t) hw hipos
    constructor
    · constructor
      · intro hnone
        rw [hlook] at hnone
        by_cases hc : i * pyMax 0 (1 - (now - t) / d.duration_typical) < 1/10
        · exact hthr.mp hc
        · rw [if_neg hc] at hnone
          exact absurd hnone (Option.noConfusion)
      · intro hgt
        rw [hlook, if_pos (hthr.mpr hgt)]
    · intro j hj
      rw [hlook] at hj
      by_cases hc : i * pyMax 0 (1 - (now - t) / d.duration_typical) < 1/10
      · rw [if_pos hc] at hj
        exact absurd hj (Option.noConfusion)
      · rw [if_neg hc] at hj
        injection hj with hj
        have hfac : (0:ℚ) ≤ 1 - (now - t) / d.duration_typical := by
          by_contra hneg
          push_neg at hneg
          rw [pyMax_eq_max, max_eq_left hneg.le, mul_zero] at hc
          exact hc (by norm_num)
        have hmaxeq : pyMax 0 (1 - (now - t) / d.duration_typical) =
            1 - (now - t) / d.duration_typical := by
          rw [pyMax_eq_max, max_eq_right hfac]
        constructor
        · rw [← hj, hmaxeq]
        · rw [← hj, hmaxeq]
          have he : 0 ≤ (now - t) / d.duration_typical :=
            div_nonneg (by linarith) hw.le
          nlinarith

/-- Witness for C3: the JOY entry at intensity 0.5 with its record at time 0
is kept at time 150 (the threshold is 240 seconds), with value 0.25 ≤ 0.5. -/
theorem claim_C3_witness :
    ¬ (300 * ((1:ℚ) - 1/(10 * (1/2))) < 150 - 0) ∧
    dictGet (pruneEmotions 150 ⟨[("JOY", 1/2)], [(0, "JOY", 1/2, "hi")]⟩) "JOY" ≠ none := by
  have h := claim_C3_decay_monotone ⟨[("JOY", 1/2)], [(0, "JOY", 1/2, "hi")]⟩ 150
      "JOY" (1/2) ⟨"JOY", (3/10, 1), 300⟩ 0
      (by simp)
      (by simp [dictGet])
      (by simp [dictGet, emotion_definitions])
      (by norm_num)
      (by norm_num)
      ⟨(0, "JOY", 1/2, "hi"),
        by norm_num [List.filter],
        rfl,
        by intro q hq
           norm_num [List.filter] at hq
           rw [hq]⟩
      (by norm_num)
  refine ⟨by norm_num, fun hn => ?_⟩
  have := h.1.mp hn
  norm_num at this

/-- Claim C6 counterexample: analyze_text_emotion("THANKS!") classifies the
text as GRATITUDE and stores intensity 1.0 (0.5 base + 0.2 for '!' + 0.3 for
upper-case, clamped only to [0.1, 1.0]), which lies strictly above
GRATITUDE's declared upper bound 0.8 — so a stored intensity does not always
lie within the emotion's declared bounds. -/
theorem claim_C6_counterexample :
    (analyze_text_emotion 0 "THANKS!" initEmoState).1 = "GRATITUDE" ∧
    dictGet (analyze_text_emotion 0 "THANKS!" initEmoState).2.2.current_emotions
      "GRATITUDE" = some 1 ∧
    dictGet emotion_definitions "GRATITUDE" =
      some ⟨"GRATITUDE", (3/10, 8/10), 900⟩ ∧
    ¬ ((1 : ℚ) ≤ 8/10) := by
  have hb1 : hasSub ['!'] "THANKS!".toList = true := by rfl
  have hb2 : pyIsUpper "THANKS!".toList = true := by rfl
  have hb3 : ¬ (100 < "THANKS!".length) := by decide
  refine ⟨rfl, ?_, by simp [dictGet, emotion_definitions], by norm_num⟩
  unfold analyze_text_emotion
  dsimp only
  rw [hb1, hb2]
  simp only [if_true, if_pos rfl, if_neg hb3]
  have : (analyze_prompt_emotion "THANKS!") = "GRATITUDE" := by rfl
  rw [this, dictGet_dictInsert_self]
  norm_num [pyMin, pyMax]

/-- Claim C6 as amended: express_emotion does keep the stored intensity
within the emotion's declared bounds, but analyze_text_emotion only clamps
into the global [0.1, 1.0] band (which can exceed the emotion's declared
maximum, as the counterexample shows), and a decay pass only guarantees that
surviving defined-emotion entries stay at or above the 0.1 floor (possibly
below the declared minimum). -/
theorem claim_C6_amended_bounds :
    (∀ (now : ℚ) (id ctx : String) (x : ℚ) (s : EmoState) (d : EmotionDefinition),
      dictGet emotion_definitions id = some d →
        d.intensity_range.1 ≤ (express_emotion now id ctx x s).1 ∧
        (express_emotion now id ctx x s).1 ≤ d.intensity_range.2 ∧
        dictGet (express_emotion now id ctx x s).2.current_emotions id =
          some (express_emotion now id ctx x s).1) ∧
    (∀ (now : ℚ) (text : String) (s : EmoState),
      1/10 ≤ (analyze_text_emotion now text s).2.1 ∧
      (analyze_text_emotion now text s).2.1 ≤ 1 ∧
      dictGet (analyze_text_emotion now text s).2.2.current_emotions
        (analyze_text_emotion now text s).1 =
          some (analyze_text_emotion now text s).2.1) ∧
    (∀ (now : ℚ) (s : EmoState) (id : String) (d : EmotionDefinition) (j : ℚ),
      dictGet emotion_definitions id = some d →
      (id, j) ∈ pruneEmotions now s → 1/10 ≤ j) := by
  refine ⟨?_, ?_, ?_⟩
  · intro now id ctx x s d hd
    unfold express_emotion
    rw [hd]
    dsimp only [Option.getD]
    refine ⟨?_, ?_, dictGet_dictInsert_self _ _ _⟩
    · rw [pyMax_eq_max]
      exact le_max_left _ _
    · rw [pyMax_eq_max, pyMin_eq_min]
      exact max_le (emotion_definitions_range_le hd) (min_le_left _ _)
  · intro now text s
    unfold analyze_text_emotion
    dsimp only
    refine ⟨?_, ?_, dictGet_dictInsert_self _ _ _⟩
    · rw [pyMin_eq_min, pyMax_eq_max]
      exact le_min (by norm_num) (le_max_left _ _)
    · rw [pyMin_eq_min]
      exact min_le_left _ _
  · intro now s id d j hd hmem
    obtain ⟨e, he, hde⟩ := List.mem_filterMap.mp hmem
    have hkey : id = e.1 := decayEntry_key hde
    unfold decayEntry at hde
    rw [← hkey, hd] at hde
    dsimp only at hde
    split at hde
    · exact absurd hde (by simp)
    · split at hde
      next hc => exact absurd hde (by simp)
      next hc =>
        simp only [Option.some.injEq, Prod.mk.injEq] at hde
        rw [← hde.2]
        exact not_lt.mp hc

/-- Witness for the amended C6: express_emotion(JOY, 5.0) stays within JOY's
declared bounds [0.3, 1.0]. -/
theorem claim_C6_witness :
    (3/10 : ℚ) ≤ (express_emotion 0 "JOY" "" 5 initEmoState).1 ∧
    (express_emotion 0 "JOY" "" 5 initEmoState).1 ≤ 1 := by
  have h := claim_C6_amended_bounds.1 0 "JOY" "" 5 initEmoState
      ⟨"JOY", (3/10, 1), 300⟩ (by simp [dictGet, emotion_definitions])
  exact ⟨h.1, h.2.1⟩

/-- An entry whose id has no emotion definition passes through a decay step
untouched (the `if emotion_def:` guard skips it). -/
theorem decayEntry_unknown {id : String} (hid : dictGet emotion_definitions id = none)
    (now : ℚ) (hist : List (ℚ × String × ℚ × String)) (v : ℚ) :
    decayEntry now hist (id, v) = some (id, v) := by
  unfold decayEntry
  dsimp only
  rw [hid]

/-- Claim C7: get_current_state first runs a decay pass and then returns the
emotion id of an entry of the decayed active set whose intensity bounds every
entry's intensity and strictly exceeds that of every entry placed before it
in the insertion-ordered map — so the strictly greatest intensity wins and
ties go to the first-inserted entry. Concretely, with equal intensities
inserted A then B, A is returned. -/
theorem claim_C7_dominant :
    (∀ (now : ℚ) (s : EmoState),
      ∃ (v : ℚ) (pre post : List (String × ℚ)),
        (decayEmotions now s).current_emotions =
          pre ++ ((get_current_state now s).1, v) :: post ∧
        (∀ p ∈ (decayEmotions now s).current_emotions, p.2 ≤ v) ∧
        (∀ p ∈ pre, p.2 < v)) ∧
    (get_current_state 0 ⟨[("A", 1/2), ("B", 1/2)], []⟩).1 = "A" := by
  constructor
  · intro now s
    rcases hl : (decayEmotions now s).current_emotions with _ | ⟨e, es⟩
    · exact absurd hl (decayEmotions_ne_nil now s)
    · have hg : (get_current_state now s).1 = (pyMaxBy (fun x => x.2) e es).1 := by
        unfold get_current_state
        dsimp only
        rw [hl]
      obtain ⟨pre, post, hdec, hlt⟩ := pyMaxBy_decomp (fun x => x.2) e es
      refine ⟨(pyMaxBy (fun x => x.2) e es).2, pre, post, ?_, ?_, ?_⟩
      · rw [hg]
        exact hdec
      · intro p hp
        exact pyMaxBy_le (fun x => x.2) e es p hp
      · exact hlt
  · have hA : dictGet emotion_definitions "A" = none := by
      simp [dictGet, emotion_definitions]
    have hB : dictGet emotion_definitions "B" = none := by
      simp [dictGet, emotion_definitions]
    have hpr : pruneEmotions 0 ⟨[("A", 1/2), ("B", 1/2)], []⟩ =
        [("A", 1/2), ("B", 1/2)] := by
      unfold pruneEmotions
      rw [List.filterMap_cons_some (decayEntry_unknown hA 0 [] (1/2)),
          List.filterMap_cons_some (decayEntry_unknown hB 0 [] (1/2))]
      rfl
    have hdec : (decayEmotions 0 ⟨[("A", 1/2), ("B", 1/2)], []⟩).current_emotions =
        [("A", 1/2), ("B", 1/2)] := by
      unfold decayEmotions
      dsimp only
      rw [hpr, if_neg (List.cons_ne_nil _ _)]
    unfold get_current_state
    dsimp only
    rw [hdec]
    dsimp only
    rw [pyMaxBy, pyMaxBy, if_neg (lt_irrefl ((1:ℚ)/2))]

/-- Claim C10: for an id with no emotion definition, express_emotion falls
back to the baseline CONTENTMENT definition and stores the entry under the
unknown id itself with the intensity clamped into CONTENTMENT's bounds
[0.3, 0.7]; every decay pass leaves such an entry present with its intensity
unchanged. -/
theorem claim_C10_unknown_ids :
    ∀ id : String, dictGet emotion_definitions id = none →
      (∀ (now : ℚ) (ctx : String) (x : ℚ) (s : EmoState),
        dictGet (express_emotion now id ctx x s).2.current_emotions id =
          some (pyMax (3/10) (pyMin (7/10) x))) ∧
      (∀ (now : ℚ) (s : EmoState) (v : ℚ),
        (s.current_emotions.map Prod.fst).Nodup →
        dictGet s.current_emotions id = some v →
        dictGet (decayEmotions now s).current_emotions id = some v) := by
  intro id hid
  constructor
  · intro now ctx x s
    unfold express_emotion
    rw [hid]
    exact dictGet_dictInsert_self _ _ _
  · intro now s v hnd hv
    have hp : dictGet (pruneEmotions now s) id = some v := by
      unfold pruneEmotions
      rw [dictGet_filterMap_decay hnd hv now s.emotion_history,
          decayEntry_unknown hid now s.emotion_history v]
      rfl
    unfold decayEmotions
    dsimp only
    rw [if_neg (fun hh => by rw [hh] at hp; exact Option.noConfusion hp)]
    exact hp

/-- Witness for C10 at the unknown id "FOO": insertion clamps 1.0 to 0.7,
and a decay pass at time 5 keeps the entry at its stored 0.7. -/
theorem claim_C10_witness :
    dictGet (express_emotion 0 "FOO" "" 1 initEmoState).2.current_emotions "FOO" =
      some (pyMax (3/10) (pyMin (7/10) 1)) ∧
    dictGet (decayEmotions 5 ⟨[("FOO", 7/10)], []⟩).current_emotions "FOO" =
      some (7/10) := by
  have h := claim_C10_unknown_ids "FOO" (by simp [dictGet, emotion_definitions])
  exact ⟨h.1 0 "" 1 initEmoState,
    h.2 5 ⟨[("FOO", 7/10)], []⟩ (7/10) (by simp) (by simp [dictGet])⟩

/-- Witness for C7: the concrete tie-break, via the theorem. -/
theorem claim_C7_witness :
    (get_current_state 0 ⟨[("A", 1/2), ("B", 1/2)], []⟩).1 = "A" :=
  claim_C7_dominant.2
